import Mathlib

/-!
Shallow embedding of the Wokwi PCA9535 custom-chip model
(`src/pca9535.chip.c`).

The chip is a purely reactive, single-threaded state machine: all
behaviour lives in the callbacks `on_i2c_connect`, `on_i2c_read`,
`on_i2c_write`, `on_i2c_disconnect`, `chip_addr_change`,
`chip_input_io_change`, plus start-up code (`initialize_state`,
`chip_init` — embedded here as `init_state` / `chip_init`, since
`initialize` is a Lean keyword).

Pin electrical levels read by the chip (`pin_read`) are modelled as an
environment function supplied to the callback that samples them:
`env : Nat → Bool` gives the level of I/O line `i` (the C code only
samples indices 0..15), and `addrPins : Nat → Bool` the level of
address-select line `i` (indices 0..2).  Pin *modes* set by the chip
(`pin_mode`) and per-pin edge-watch registration (`pin_watch` /
`pin_watch_stop`) are chip-visible state and are part of `ChipState`.
Machine integers (`uint8_t`/`uint16_t`) are `Nat` with explicit
masking exactly where the C code masks.
-/

/-- Electrical mode a pin can be put in by `pin_mode` / `pin_init`
in this program: floating input, input with pull-up, or driven low. -/
inductive PinMode where
  | INPUT
  | INPUT_PULLUP
  | OUTPUT_LOW
deriving DecidableEq

/-- Embedding of `chip_state_t`: the address, the 16-bit registers, the
transaction byte counter (`i2c_portcount`), and the chip-driven pin
state (mode of `nINT`, mode and watch registration of each I/O line).
The `pin_t` handles themselves and the i2c device handle carry no
behaviour and are not represented. -/
structure ChipState where
  address : Nat
  inputMask : Nat
  inputValue : Nat
  lastReadValue : Nat
  i2c_portcount : Nat
  nINTMode : PinMode
  ioMode : Nat → PinMode
  ioWatch : Nat → Bool

/-- `interruptFlagOff`: release the interrupt line (open drain floating,
`pin_mode(chip->nINT, INPUT)`). -/
def interruptFlagOff (chip : ChipState) : ChipState :=
  { chip with nINTMode := PinMode.INPUT }

/-- `interruptFlagOn`: assert the interrupt line
(`pin_mode(chip->nINT, OUTPUT_LOW)`). -/
def interruptFlagOn (chip : ChipState) : ChipState :=
  { chip with nINTMode := PinMode.OUTPUT_LOW }

/-- `incrementPortCount`: toggle `i2c_portcount`; any non-zero value
loops back to zero, zero becomes one. -/
def incrementPortCount (chip : ChipState) : ChipState :=
  if chip.i2c_portcount ≠ 0 then { chip with i2c_portcount := 0 }
  else { chip with i2c_portcount := 1 }

/-- `on_i2c_connect`: reset `i2c_portcount`; on a read-type connect,
snapshot `lastReadValue := inputValue` and release the interrupt line.
Returns the ACK boolean.  The `address` parameter is only compared for
a diagnostic log line (see `addressMismatchLogged`) and has no effect
on state or ACK. -/
def on_i2c_connect (chip : ChipState) (address : Nat) (read : Bool) :
    ChipState × Bool :=
  let chip := { chip with i2c_portcount := 0 }
  let chip :=
    if read then interruptFlagOff { chip with lastReadValue := chip.inputValue }
    else chip
  (chip, true)

/-- The condition under which `on_i2c_connect` emits its
address-mismatch log line (`if (address != chip->address) printf…`). -/
def addressMismatchLogged (chip : ChipState) (address : Nat) : Bool :=
  address != chip.address

/-- `on_i2c_read`: return `(inputValue >> (i2c_portcount*8)) & 0xff`
and advance the port counter. -/
def on_i2c_read (chip : ChipState) : ChipState × Nat :=
  let retVal := (chip.inputValue >>> (chip.i2c_portcount * 8)) &&& 0xff
  (incrementPortCount chip, retVal)

/-- One iteration of the `for (i=0; i<8; i++)` loop of `on_i2c_write`:
stop any watch on line `i + i2c_portcount*8`; if bit `i` of the data
byte is set, record the line in `inputMask`, make it an input with
pull-up and watch it; otherwise drive it low. -/
def writeBody (data : Nat) (c : ChipState) (i : Nat) : ChipState :=
  let bitIdx := i + c.i2c_portcount * 8
  let c := { c with ioWatch := Function.update c.ioWatch bitIdx false }
  if data.testBit i then
    { c with
      inputMask := c.inputMask ||| (1 <<< bitIdx),
      ioMode := Function.update c.ioMode bitIdx PinMode.INPUT_PULLUP,
      ioWatch := Function.update c.ioWatch bitIdx true }
  else
    { c with ioMode := Function.update c.ioMode bitIdx PinMode.OUTPUT_LOW }

/-- `on_i2c_write`: on the first byte of a pair (`i2c_portcount == 0`)
clear `inputMask`; run the 8-bit configuration loop; advance the port
counter; ACK. -/
def on_i2c_write (chip : ChipState) (data : Nat) : ChipState × Bool :=
  let chip :=
    if chip.i2c_portcount = 0 then { chip with inputMask := 0 } else chip
  let chip := (List.range 8).foldl (writeBody data) chip
  (incrementPortCount chip, true)

/-- `on_i2c_disconnect`: no action. -/
def on_i2c_disconnect (chip : ChipState) : ChipState :=
  chip

/-- `read_address`: OR the base address `0x20` with the 3-bit value
sampled from the address-select pins (bit `i` = level of line `i`). -/
def read_address (addrPins : Nat → Bool) : Nat :=
  let lsbits := (List.range 3).foldl
    (fun acc i => if addrPins i then acc ||| (1 <<< i) else acc) 0
  0x20 ||| lsbits

/-- `chip_addr_change`: recompute and store the device address. -/
def chip_addr_change (chip : ChipState) (addrPins : Nat → Bool) : ChipState :=
  { chip with address := read_address addrPins }

/-- `readInputsValue`: scan the 16 I/O lines; a line contributes its
level iff its `inputMask` bit is set.  Lines whose mask bit is clear
contribute `0` (the accumulator starts at zero). -/
def readInputsValue (chip : ChipState) (env : Nat → Bool) : Nat :=
  (List.range 16).foldl
    (fun acc i =>
      if chip.inputMask.testBit i then
        if env i then acc ||| (1 <<< i) else acc
      else acc) 0

/-- `chip_input_io_change`: recompute `inputValue` from the live pin
levels, then assert the interrupt iff it differs from `lastReadValue`
(release it otherwise). -/
def chip_input_io_change (chip : ChipState) (env : Nat → Bool) : ChipState :=
  let chip := { chip with inputValue := readInputsValue chip env }
  if chip.inputValue ≠ chip.lastReadValue then interruptFlagOn chip
  else interruptFlagOff chip

/-- A sequence of monitored-line edge events, each delivering the pin
levels seen at that event. -/
def applyEdges (chip : ChipState) (events : List (Nat → Bool)) : ChipState :=
  events.foldl chip_input_io_change chip

/-- Embedding of C `initialize_state` (renamed: `initialize` is a Lean
keyword): set address to the base, both 16-bit registers to `0xffff`,
and the port counter to zero.  `lastReadValue`, the I/O pin modes and
the interrupt pin are *not* assigned here. -/
def init_state (chip : ChipState) : ChipState :=
  { chip with
    address := 0x20,
    inputMask := 0xffff,
    inputValue := 0xffff,
    i2c_portcount := 0 }

/-- `chip_init`: start-up.  `garbage` is the freshly `malloc`ed state
(every field the code never assigns keeps its indeterminate content —
in particular `lastReadValue`).  The code runs `initialize_state`,
creates `nINT` as a floating input, creates the 16 I/O pins as watched
inputs with pull-up, re-sets `inputMask := 0xffff`, resolves the
address from the address-select pins, and releases the interrupt
line.  `initIoBody` is one iteration of the I/O-pin creation loop
(`pin_init(ioPinNames[i], INPUT_PULLUP)` + `pin_watch`). -/
def initIoBody (c : ChipState) (i : Nat) : ChipState :=
  { c with
    ioMode := Function.update c.ioMode i PinMode.INPUT_PULLUP,
    ioWatch := Function.update c.ioWatch i true }

/-- `chip_init` (continued): the full start-up sequence. -/
def chip_init (garbage : ChipState) (addrPins : Nat → Bool) : ChipState :=
  let chip := init_state garbage
  let chip := { chip with nINTMode := PinMode.INPUT }
  let chip := (List.range 16).foldl initIoBody chip
  let chip := { chip with inputMask := 0xffff }
  let chip := { chip with address := read_address addrPins }
  interruptFlagOff chip

/-- A concrete all-zero "malloc garbage" state, used to build concrete
post-start-up states for witnesses and counterexamples. -/
def garbage0 : ChipState :=
  { address := 0, inputMask := 0, inputValue := 0, lastReadValue := 0,
    i2c_portcount := 0, nINTMode := PinMode.INPUT,
    ioMode := fun _ => PinMode.INPUT, ioWatch := fun _ => false }

/-- The chip state right after start-up with all address pins low. -/
def s0 : ChipState :=
  chip_init garbage0 (fun _ => false)

/-! ### Helper lemmas about the write-loop body -/

theorem writeBody_i2c_portcount (data : Nat) (c : ChipState) (i : Nat) :
    (writeBody data c i).i2c_portcount = c.i2c_portcount := by
  unfold writeBody; dsimp only; split <;> rfl

theorem writeBody_lastReadValue (data : Nat) (c : ChipState) (i : Nat) :
    (writeBody data c i).lastReadValue = c.lastReadValue := by
  unfold writeBody; dsimp only; split <;> rfl

theorem writeBody_inputValue (data : Nat) (c : ChipState) (i : Nat) :
    (writeBody data c i).inputValue = c.inputValue := by
  unfold writeBody; dsimp only; split <;> rfl

theorem writeBody_nINTMode (data : Nat) (c : ChipState) (i : Nat) :
    (writeBody data c i).nINTMode = c.nINTMode := by
  unfold writeBody; dsimp only; split <;> rfl

theorem writeBody_address (data : Nat) (c : ChipState) (i : Nat) :
    (writeBody data c i).address = c.address := by
  unfold writeBody; dsimp only; split <;> rfl

theorem writeBody_ioMode (data : Nat) (c : ChipState) (i k : Nat) :
    (writeBody data c i).ioMode k =
      if k = i + c.i2c_portcount * 8 then
        (if data.testBit i then PinMode.INPUT_PULLUP else PinMode.OUTPUT_LOW)
      else c.ioMode k := by
  unfold writeBody; dsimp only
  by_cases h : data.testBit i <;>
    simp [h, Function.update_apply]

theorem writeBody_ioWatch (data : Nat) (c : ChipState) (i k : Nat) :
    (writeBody data c i).ioWatch k =
      if k = i + c.i2c_portcount * 8 then data.testBit i
      else c.ioWatch k := by
  unfold writeBody; dsimp only
  by_cases h : data.testBit i <;>
    simp [h, Function.update_apply]

theorem writeBody_inputMask (data : Nat) (c : ChipState) (i : Nat) :
    (writeBody data c i).inputMask =
      if data.testBit i then c.inputMask ||| (1 <<< (i + c.i2c_portcount * 8))
      else c.inputMask := by
  unfold writeBody; dsimp only
  by_cases h : data.testBit i <;> simp [h]

/-! ### Helper lemmas about the whole write loop -/

theorem writeLoop_i2c_portcount (data : Nat) (l : List Nat) (c : ChipState) :
    (l.foldl (writeBody data) c).i2c_portcount = c.i2c_portcount := by
  induction l generalizing c with
  | nil => rfl
  | cons a l ih => simp [List.foldl_cons, ih, writeBody_i2c_portcount]

theorem writeLoop_lastReadValue (data : Nat) (l : List Nat) (c : ChipState) :
    (l.foldl (writeBody data) c).lastReadValue = c.lastReadValue := by
  induction l generalizing c with
  | nil => rfl
  | cons a l ih => simp [List.foldl_cons, ih, writeBody_lastReadValue]

theorem writeLoop_inputValue (data : Nat) (l : List Nat) (c : ChipState) :
    (l.foldl (writeBody data) c).inputValue = c.inputValue := by
  induction l generalizing c with
  | nil => rfl
  | cons a l ih => simp [List.foldl_cons, ih, writeBody_inputValue]

theorem writeLoop_nINTMode (data : Nat) (l : List Nat) (c : ChipState) :
    (l.foldl (writeBody data) c).nINTMode = c.nINTMode := by
  induction l generalizing c with
  | nil => rfl
  | cons a l ih => simp [List.foldl_cons, ih, writeBody_nINTMode]

theorem writeLoop_ioMode (data : Nat) (n : Nat) (c : ChipState) (k : Nat) :
    ((List.range n).foldl (writeBody data) c).ioMode k =
      if c.i2c_portcount * 8 ≤ k ∧ k < c.i2c_portcount * 8 + n then
        (if data.testBit (k - c.i2c_portcount * 8) then PinMode.INPUT_PULLUP
         else PinMode.OUTPUT_LOW)
      else c.ioMode k := by
  induction n with
  | zero =>
    simp only [List.range_zero, List.foldl_nil]
    have h : ¬ (c.i2c_portcount * 8 ≤ k ∧ k < c.i2c_portcount * 8 + 0) := by omega
    rw [if_neg h]
  | succ n ih =>
    rw [List.range_succ, List.foldl_append, List.foldl_cons, List.foldl_nil,
        writeBody_ioMode, writeLoop_i2c_portcount]
    by_cases hk : k = n + c.i2c_portcount * 8
    · subst hk
      have hc : c.i2c_portcount * 8 ≤ n + c.i2c_portcount * 8 ∧
          n + c.i2c_portcount * 8 < c.i2c_portcount * 8 + (n + 1) := by omega
      rw [if_pos rfl, if_pos hc, Nat.add_sub_cancel]
    · rw [if_neg hk, ih]
      by_cases hin : c.i2c_portcount * 8 ≤ k ∧ k < c.i2c_portcount * 8 + n
      · have hc : c.i2c_portcount * 8 ≤ k ∧
            k < c.i2c_portcount * 8 + (n + 1) := by omega
        rw [if_pos hin, if_pos hc]
      · have hc : ¬ (c.i2c_portcount * 8 ≤ k ∧
            k < c.i2c_portcount * 8 + (n + 1)) := by omega
        rw [if_neg hin, if_neg hc]

theorem writeLoop_ioWatch (data : Nat) (n : Nat) (c : ChipState) (k : Nat) :
    ((List.range n).foldl (writeBody data) c).ioWatch k =
      if c.i2c_portcount * 8 ≤ k ∧ k < c.i2c_portcount * 8 + n then
        data.testBit (k - c.i2c_portcount * 8)
      else c.ioWatch k := by
  induction n with
  | zero =>
    simp only [List.range_zero, List.foldl_nil]
    have h : ¬ (c.i2c_portcount * 8 ≤ k ∧ k < c.i2c_portcount * 8 + 0) := by omega
    rw [if_neg h]
  | succ n ih =>
    rw [List.range_succ, List.foldl_append, List.foldl_cons, List.foldl_nil,
        writeBody_ioWatch, writeLoop_i2c_portcount]
    by_cases hk : k = n + c.i2c_portcount * 8
    · subst hk
      have hc : c.i2c_portcount * 8 ≤ n + c.i2c_portcount * 8 ∧
          n + c.i2c_portcount * 8 < c.i2c_portcount * 8 + (n + 1) := by omega
      rw [if_pos rfl, if_pos hc, Nat.add_sub_cancel]
    · rw [if_neg hk, ih]
      by_cases hin : c.i2c_portcount * 8 ≤ k ∧ k < c.i2c_portcount * 8 + n
      · have hc : c.i2c_portcount * 8 ≤ k ∧
            k < c.i2c_portcount * 8 + (n + 1) := by omega
        rw [if_pos hin, if_pos hc]
      · have hc : ¬ (c.i2c_portcount * 8 ≤ k ∧
            k < c.i2c_portcount * 8 + (n + 1)) := by omega
        rw [if_neg hin, if_neg hc]

theorem writeLoop_inputMask_out (data : Nat) (n : Nat) (c : ChipState) (k : Nat)
    (hk : k < c.i2c_portcount * 8 ∨ c.i2c_portcount * 8 + n ≤ k) :
    ((List.range n).foldl (writeBody data) c).inputMask.testBit k =
      c.inputMask.testBit k := by
  induction n with
  | zero => rfl
  | succ n ih =>
    rw [List.range_succ, List.foldl_append, List.foldl_cons, List.foldl_nil,
        writeBody_inputMask, writeLoop_i2c_portcount]
    have hout : k < c.i2c_portcount * 8 ∨ c.i2c_portcount * 8 + n ≤ k := by omega
    by_cases h : data.testBit n
    · rw [if_pos h, Nat.testBit_or, Nat.shiftLeft_eq, one_mul,
        Nat.testBit_two_pow_of_ne (by omega : n + c.i2c_portcount * 8 ≠ k),
        Bool.or_false, ih hout]
    · rw [if_neg h, ih hout]

theorem writeLoop_inputMask_in (data : Nat) (n : Nat) (c : ChipState) (j : Nat)
    (hj : j < n) :
    ((List.range n).foldl (writeBody data) c).inputMask.testBit
        (j + c.i2c_portcount * 8) =
      (c.inputMask.testBit (j + c.i2c_portcount * 8) || data.testBit j) := by
  induction n with
  | zero => omega
  | succ n ih =>
    rw [List.range_succ, List.foldl_append, List.foldl_cons, List.foldl_nil,
        writeBody_inputMask, writeLoop_i2c_portcount]
    by_cases hjn : j = n
    · subst hjn
      have hout := writeLoop_inputMask_out data j c (j + c.i2c_portcount * 8)
        (by omega)
      by_cases h : data.testBit j
      · rw [if_pos h, Nat.testBit_or, Nat.shiftLeft_eq, one_mul,
          Nat.testBit_two_pow_self, h, Bool.or_true, Bool.or_true]
      · rw [if_neg h, hout]
        simp [h]
    · have hjlt : j < n := by omega
      by_cases h : data.testBit n
      · rw [if_pos h, Nat.testBit_or, Nat.shiftLeft_eq, one_mul,
          Nat.testBit_two_pow_of_ne
            (by omega : n + c.i2c_portcount * 8 ≠ j + c.i2c_portcount * 8),
          Bool.or_false, ih hjlt]
      · rw [if_neg h, ih hjlt]

/-! ### Helper lemmas about `readInputsValue` -/

theorem readLoop_testBit_ge (chip : ChipState) (env : Nat → Bool)
    (n k acc : Nat) (hk : n ≤ k) :
    ((List.range n).foldl
      (fun acc i =>
        if chip.inputMask.testBit i then
          if env i then acc ||| (1 <<< i) else acc
        else acc) acc).testBit k = acc.testBit k := by
  induction n generalizing acc with
  | zero => rfl
  | succ n ih =>
    rw [List.range_succ, List.foldl_append, List.foldl_cons, List.foldl_nil]
    by_cases hm : chip.inputMask.testBit n
    · by_cases he : env n
      · rw [if_pos hm, if_pos he, Nat.testBit_or, Nat.shiftLeft_eq, one_mul,
          Nat.testBit_two_pow_of_ne (by omega : n ≠ k), Bool.or_false,
          ih acc (by omega)]
      · rw [if_pos hm, if_neg he, ih acc (by omega)]
    · rw [if_neg hm, ih acc (by omega)]

theorem readLoop_testBit_lt (chip : ChipState) (env : Nat → Bool)
    (n k acc : Nat) (hk : k < n) :
    ((List.range n).foldl
      (fun acc i =>
        if chip.inputMask.testBit i then
          if env i then acc ||| (1 <<< i) else acc
        else acc) acc).testBit k =
      (acc.testBit k || (chip.inputMask.testBit k && env k)) := by
  induction n generalizing acc with
  | zero => omega
  | succ n ih =>
    rw [List.range_succ, List.foldl_append, List.foldl_cons, List.foldl_nil]
    by_cases hkn : k = n
    · subst hkn
      by_cases hm : chip.inputMask.testBit k
      · by_cases he : env k
        · rw [if_pos hm, if_pos he, Nat.testBit_or, Nat.shiftLeft_eq, one_mul,
            Nat.testBit_two_pow_self, readLoop_testBit_ge chip env k k acc
              (Nat.le_refl k), hm, he]
          simp
        · rw [if_pos hm, if_neg he, readLoop_testBit_ge chip env k k acc
            (Nat.le_refl k), hm]
          simp [he]
      · rw [if_neg hm, readLoop_testBit_ge chip env k k acc (Nat.le_refl k)]
        simp [hm]
    · have hlt : k < n := by omega
      by_cases hm : chip.inputMask.testBit n
      · by_cases he : env n
        · rw [if_pos hm, if_pos he, Nat.testBit_or, Nat.shiftLeft_eq, one_mul,
            Nat.testBit_two_pow_of_ne (by omega : n ≠ k), Bool.or_false,
            ih acc hlt]
        · rw [if_pos hm, if_neg he, ih acc hlt]
      · rw [if_neg hm, ih acc hlt]

theorem readInputsValue_testBit (chip : ChipState) (env : Nat → Bool)
    (k : Nat) :
    (readInputsValue chip env).testBit k =
      (decide (k < 16) && chip.inputMask.testBit k && env k) := by
  unfold readInputsValue
  by_cases hk : k < 16
  · rw [readLoop_testBit_lt chip env 16 k 0 hk, Nat.zero_testBit,
      Bool.false_or, decide_eq_true hk, Bool.true_and]
  · rw [readLoop_testBit_ge chip env 16 k 0 (by omega), Nat.zero_testBit,
      decide_eq_false hk, Bool.false_and, Bool.false_and]

/-! ### Small-step helper lemmas for the remaining callbacks -/

theorem incrementPortCount_spec (c : ChipState) :
    (incrementPortCount c).i2c_portcount =
        (if c.i2c_portcount = 0 then 1 else 0) ∧
      (incrementPortCount c).inputMask = c.inputMask ∧
      (incrementPortCount c).inputValue = c.inputValue ∧
      (incrementPortCount c).lastReadValue = c.lastReadValue ∧
      (incrementPortCount c).nINTMode = c.nINTMode ∧
      (incrementPortCount c).ioMode = c.ioMode ∧
      (incrementPortCount c).ioWatch = c.ioWatch := by
  unfold incrementPortCount
  by_cases h : c.i2c_portcount = 0 <;> simp [h]

theorem chip_input_io_change_spec (c : ChipState) (env : Nat → Bool) :
    (chip_input_io_change c env).inputValue = readInputsValue c env ∧
      (chip_input_io_change c env).lastReadValue = c.lastReadValue ∧
      (chip_input_io_change c env).inputMask = c.inputMask ∧
      (chip_input_io_change c env).nINTMode =
        (if readInputsValue c env ≠ c.lastReadValue then PinMode.OUTPUT_LOW
         else PinMode.INPUT) := by
  unfold chip_input_io_change interruptFlagOn interruptFlagOff
  by_cases h : readInputsValue c env = c.lastReadValue <;> simp [h]

theorem initLoop_frame (l : List Nat) (c : ChipState) :
    (l.foldl initIoBody c).address = c.address ∧
      (l.foldl initIoBody c).inputMask = c.inputMask ∧
      (l.foldl initIoBody c).inputValue = c.inputValue ∧
      (l.foldl initIoBody c).lastReadValue = c.lastReadValue ∧
      (l.foldl initIoBody c).i2c_portcount = c.i2c_portcount ∧
      (l.foldl initIoBody c).nINTMode = c.nINTMode := by
  induction l generalizing c with
  | nil => exact ⟨rfl, rfl, rfl, rfl, rfl, rfl⟩
  | cons a l ih => simpa [List.foldl_cons, initIoBody] using ih (initIoBody c a)

/-! ### Top-level characterization of `on_i2c_write` -/

theorem on_i2c_write_ack (s : ChipState) (d : Nat) :
    (on_i2c_write s d).2 = true := rfl

theorem on_i2c_write_lastReadValue (s : ChipState) (d : Nat) :
    (on_i2c_write s d).1.lastReadValue = s.lastReadValue := by
  unfold on_i2c_write; dsimp only
  rw [(incrementPortCount_spec _).2.2.2.1, writeLoop_lastReadValue]
  by_cases h : s.i2c_portcount = 0 <;> simp [h]

theorem on_i2c_write_inputValue (s : ChipState) (d : Nat) :
    (on_i2c_write s d).1.inputValue = s.inputValue := by
  unfold on_i2c_write; dsimp only
  rw [(incrementPortCount_spec _).2.2.1, writeLoop_inputValue]
  by_cases h : s.i2c_portcount = 0 <;> simp [h]

theorem on_i2c_write_nINTMode (s : ChipState) (d : Nat) :
    (on_i2c_write s d).1.nINTMode = s.nINTMode := by
  unfold on_i2c_write; dsimp only
  rw [(incrementPortCount_spec _).2.2.2.2.1, writeLoop_nINTMode]
  by_cases h : s.i2c_portcount = 0 <;> simp [h]

theorem on_i2c_write_i2c_portcount (s : ChipState) (d : Nat) :
    (on_i2c_write s d).1.i2c_portcount =
      (if s.i2c_portcount = 0 then 1 else 0) := by
  unfold on_i2c_write; dsimp only
  rw [(incrementPortCount_spec _).1, writeLoop_i2c_portcount]
  by_cases h : s.i2c_portcount = 0 <;> simp [h]

theorem on_i2c_write_ioMode (s : ChipState) (d k : Nat) :
    (on_i2c_write s d).1.ioMode k =
      (if s.i2c_portcount * 8 ≤ k ∧ k < s.i2c_portcount * 8 + 8 then
        (if d.testBit (k - s.i2c_portcount * 8) then PinMode.INPUT_PULLUP
         else PinMode.OUTPUT_LOW)
       else s.ioMode k) := by
  unfold on_i2c_write; dsimp only
  rw [(incrementPortCount_spec _).2.2.2.2.2.1, writeLoop_ioMode]
  by_cases h : s.i2c_portcount = 0 <;> simp [h]

theorem on_i2c_write_ioWatch (s : ChipState) (d k : Nat) :
    (on_i2c_write s d).1.ioWatch k =
      (if s.i2c_portcount * 8 ≤ k ∧ k < s.i2c_portcount * 8 + 8 then
        d.testBit (k - s.i2c_portcount * 8)
       else s.ioWatch k) := by
  unfold on_i2c_write; dsimp only
  rw [(incrementPortCount_spec _).2.2.2.2.2.2, writeLoop_ioWatch]
  by_cases h : s.i2c_portcount = 0 <;> simp [h]

theorem on_i2c_write_inputMask_in (s : ChipState) (d j : Nat) (hj : j < 8) :
    (on_i2c_write s d).1.inputMask.testBit (j + s.i2c_portcount * 8) =
      ((if s.i2c_portcount = 0 then false
        else s.inputMask.testBit (j + s.i2c_portcount * 8)) || d.testBit j) := by
  unfold on_i2c_write; dsimp only
  rw [(incrementPortCount_spec _).2.1]
  by_cases h : s.i2c_portcount = 0
  · rw [if_pos h]
    have hw := writeLoop_inputMask_in d 8 { s with inputMask := 0 } j hj
    simp only at hw
    rw [hw]
    simp [h, Nat.zero_testBit]
  · rw [if_neg h]
    rw [writeLoop_inputMask_in d 8 s j hj]
    simp [h]

theorem on_i2c_write_inputMask_out (s : ChipState) (d k : Nat)
    (hk : k < s.i2c_portcount * 8 ∨ s.i2c_portcount * 8 + 8 ≤ k) :
    (on_i2c_write s d).1.inputMask.testBit k =
      (if s.i2c_portcount = 0 then false else s.inputMask.testBit k) := by
  unfold on_i2c_write; dsimp only
  rw [(incrementPortCount_spec _).2.1]
  by_cases h : s.i2c_portcount = 0
  · rw [if_pos h]
    have hw := writeLoop_inputMask_out d 8 { s with inputMask := 0 } k
      (by simp only; omega)
    simp only at hw
    rw [hw]
    simp [h, Nat.zero_testBit]
  · rw [if_neg h]
    rw [writeLoop_inputMask_out d 8 s k hk]
    simp [h]

theorem on_i2c_read_state (s : ChipState) :
    (on_i2c_read s).1 = incrementPortCount s := rfl

/-! ### Claims -/

/-- C4: a bus connect with `isRead = true` snapshots `lastReadValue :=
inputValue`, releases the interrupt line (mode `INPUT`), resets the
transaction byte index to 0, and ACKs — all as part of the connect
itself, before any byte read. -/
theorem C4_read_connect_snapshot (s : ChipState) (a : Nat) :
    (on_i2c_connect s a true).1.lastReadValue = s.inputValue ∧
    (on_i2c_connect s a true).1.nINTMode = PinMode.INPUT ∧
    (on_i2c_connect s a true).1.i2c_portcount = 0 ∧
    (on_i2c_connect s a true).2 = true :=
  ⟨rfl, rfl, rfl, rfl⟩

/-- C7: the connect and write callbacks ACK unconditionally, for every
address and byte; a connect with a mismatched address produces exactly
the same state as a matching one (the mismatch only triggers the log
condition `addressMismatchLogged`). -/
theorem C7_unconditional_ack (s : ChipState) (a b d : Nat) (r : Bool) :
    (on_i2c_connect s a r).2 = true ∧
    (on_i2c_write s d).2 = true ∧
    (on_i2c_connect s a r).1 = (on_i2c_connect s b r).1 ∧
    (addressMismatchLogged s a = true ↔ a ≠ s.address) := by
  refine ⟨?_, rfl, rfl, ?_⟩
  · unfold on_i2c_connect
    by_cases hr : r = true <;> simp [hr]
  · simp [addressMismatchLogged]

/-- C9: `lastReadValue` is left unchanged by the bus-read, bus-write,
bus-disconnect, monitored-line-change and address-line-change
callbacks, and by a bus connect with `isRead = false`. -/
theorem C9_lastReadValue_frame (s : ChipState) (a d : Nat)
    (env pins : Nat → Bool) :
    (on_i2c_read s).1.lastReadValue = s.lastReadValue ∧
    (on_i2c_write s d).1.lastReadValue = s.lastReadValue ∧
    (on_i2c_disconnect s).lastReadValue = s.lastReadValue ∧
    (chip_input_io_change s env).lastReadValue = s.lastReadValue ∧
    (chip_addr_change s pins).lastReadValue = s.lastReadValue ∧
    (on_i2c_connect s a false).1.lastReadValue = s.lastReadValue :=
  ⟨(incrementPortCount_spec s).2.2.2.1,
   on_i2c_write_lastReadValue s d, rfl,
   (chip_input_io_change_spec s env).2.1, rfl, rfl⟩

/-- C10: right after start-up, for every malloc content and every
address-pin configuration, `inputMask = 0xffff`, `inputValue = 0xffff`
(the live I/O pin levels are not sampled — `chip_init` never reads
them), the transaction byte index is 0, the interrupt line is
released, and `lastReadValue` keeps its indeterminate malloc content
(it is never assigned during start-up). -/
theorem C10_initial_state (g : ChipState) (pins : Nat → Bool) :
    (chip_init g pins).inputMask = 0xffff ∧
    (chip_init g pins).inputValue = 0xffff ∧
    (chip_init g pins).i2c_portcount = 0 ∧
    (chip_init g pins).nINTMode = PinMode.INPUT ∧
    (chip_init g pins).lastReadValue = g.lastReadValue ∧
    (chip_init g pins).address = read_address pins := by
  have h := initLoop_frame (List.range 16)
    { init_state g with nINTMode := PinMode.INPUT }
  refine ⟨rfl, ?_, ?_, rfl, ?_, rfl⟩
  · show ((List.range 16).foldl initIoBody
      { init_state g with nINTMode := PinMode.INPUT }).inputValue = 0xffff
    rw [h.2.2.1]
    rfl
  · show ((List.range 16).foldl initIoBody
      { init_state g with nINTMode := PinMode.INPUT }).i2c_portcount = 0
    rw [h.2.2.2.2.1]
    rfl
  · show ((List.range 16).foldl initIoBody
      { init_state g with nINTMode := PinMode.INPUT }).lastReadValue =
      g.lastReadValue
    rw [h.2.2.2.1]
    rfl

/-- C2: the bus-read callback returns byte `i2c_portcount` of
`inputValue` (little-endian), then toggles the byte index between 0
and 1; with `inputValue = 0x1234` three successive reads in one
transaction return `0x34`, `0x12`, `0x34`; after any read the index is
at most 1. -/
theorem C2_read_byte_framing (s : ChipState) (h : s.i2c_portcount ≤ 1) :
    (on_i2c_read s).2 = s.inputValue / 256 ^ s.i2c_portcount % 256 ∧
    (on_i2c_read s).1.i2c_portcount = 1 - s.i2c_portcount ∧
    (on_i2c_read s).1.inputValue = s.inputValue ∧
    (on_i2c_read s).1.lastReadValue = s.lastReadValue ∧
    (∀ t : ChipState, (on_i2c_read t).1.i2c_portcount ≤ 1) ∧
    (s.inputValue = 0x1234 → s.i2c_portcount = 0 →
      ((on_i2c_read s).2 = 0x34 ∧
       (on_i2c_read (on_i2c_read s).1).2 = 0x12 ∧
       (on_i2c_read (on_i2c_read (on_i2c_read s).1).1).2 = 0x34)) := by
  refine ⟨?_, ?_, (incrementPortCount_spec s).2.2.1,
    (incrementPortCount_spec s).2.2.2.1, ?_, ?_⟩
  · show (s.inputValue >>> (s.i2c_portcount * 8)) &&& 0xff = _
    have h255 : (0xff : Nat) = 2 ^ 8 - 1 := by norm_num
    rw [h255, Nat.and_pow_two_sub_one_eq_mod, Nat.shiftRight_eq_div_pow]
    have h256 : (256 : Nat) ^ s.i2c_portcount = 2 ^ (s.i2c_portcount * 8) := by
      rw [show (256 : Nat) = 2 ^ 8 by norm_num, ← pow_mul, Nat.mul_comm]
    rw [h256]
  · rw [on_i2c_read_state, (incrementPortCount_spec s).1]
    split_ifs with h0 <;> omega
  · intro t
    rw [on_i2c_read_state, (incrementPortCount_spec t).1]
    split_ifs <;> omega
  · intro h1 h2
    have e1 : (on_i2c_read s).1.inputValue = s.inputValue :=
      (incrementPortCount_spec s).2.2.1
    have e2 : (on_i2c_read s).1.i2c_portcount = 1 := by
      rw [on_i2c_read_state, (incrementPortCount_spec s).1, if_pos h2]
    have e3 : (on_i2c_read (on_i2c_read s).1).1.inputValue = s.inputValue := by
      rw [on_i2c_read_state, (incrementPortCount_spec _).2.2.1, e1]
    have e4 : (on_i2c_read (on_i2c_read s).1).1.i2c_portcount = 0 := by
      rw [on_i2c_read_state, (incrementPortCount_spec _).1, e2]
      decide
    refine ⟨?_, ?_, ?_⟩
    · show (s.inputValue >>> (s.i2c_portcount * 8)) &&& 0xff = 0x34
      rw [h1, h2]
      decide
    · show ((on_i2c_read s).1.inputValue >>>
        ((on_i2c_read s).1.i2c_portcount * 8)) &&& 0xff = 0x12
      rw [e1, e2, h1]
      decide
    · show ((on_i2c_read (on_i2c_read s).1).1.inputValue >>>
        ((on_i2c_read (on_i2c_read s).1).1.i2c_portcount * 8)) &&& 0xff = 0x34
      rw [e3, e4, h1]
      decide

/-- C2 witness: the theorem applied to a concrete state with
`inputValue = 0x1234` and byte index 0. -/
theorem C2_read_byte_framing_witness :
    (on_i2c_read { s0 with inputValue := 0x1234 }).2 = 0x34 := by
  have h := C2_read_byte_framing { s0 with inputValue := 0x1234 } (by decide)
  exact (h.2.2.2.2.2 rfl (by decide)).1

/-- C8: for every combination of the three address-select pin levels,
the resolved address is the base `0x20` OR-ed (equivalently: plus) the
3-bit value whose bit `i` is the level of line `i`; every
address-select edge stores `read_address` into the state, and that
stored address is the one the next connect's mismatch check compares
against. -/
theorem C8_address_resolution (pins : Nat → Bool) (s : ChipState) (a : Nat) :
    read_address pins = 0x20 |||
      ((if pins 0 then 1 else 0) + (if pins 1 then 2 else 0) +
        (if pins 2 then 4 else 0)) ∧
    read_address pins = 0x20 +
      ((if pins 0 then 1 else 0) + (if pins 1 then 2 else 0) +
        (if pins 2 then 4 else 0)) ∧
    (chip_addr_change s pins).address = read_address pins ∧
    (addressMismatchLogged (chip_addr_change s pins) a = true ↔
      a ≠ read_address pins) := by
  refine ⟨?_, ?_, rfl, ?_⟩
  · rcases h0 : pins 0 <;> rcases h1 : pins 1 <;> rcases h2 : pins 2 <;>
      simp [read_address, List.range_succ, h0, h1, h2]
  · rcases h0 : pins 0 <;> rcases h1 : pins 1 <;> rcases h2 : pins 2 <;>
      simp [read_address, List.range_succ, h0, h1, h2]
  · simp [addressMismatchLogged, chip_addr_change, bne_iff_ne]

/-- C1: every monitored-line-change invocation recomputes `inputValue`
and leaves the interrupt line asserted (`OUTPUT_LOW`) iff the fresh
`inputValue` differs from `lastReadValue`, released (`INPUT`) iff they
are equal — hence after any non-empty sequence of edge events the
interrupt line obeys the same rule; and no other bus/pin callback
touches the interrupt line, except the read-type connect which
releases it. -/
theorem C1_interrupt_assertion_rule (s : ChipState) (env : Nat → Bool)
    (l : List (Nat → Bool)) (hl : l ≠ []) :
    ((chip_input_io_change s env).inputValue = readInputsValue s env ∧
     (chip_input_io_change s env).lastReadValue = s.lastReadValue ∧
     (chip_input_io_change s env).nINTMode =
       (if (chip_input_io_change s env).inputValue ≠
           (chip_input_io_change s env).lastReadValue
        then PinMode.OUTPUT_LOW else PinMode.INPUT)) ∧
    ((applyEdges s l).nINTMode =
      (if (applyEdges s l).inputValue ≠ (applyEdges s l).lastReadValue
       then PinMode.OUTPUT_LOW else PinMode.INPUT)) ∧
    (∀ (t : ChipState) (a : Nat),
      (on_i2c_connect t a true).1.nINTMode = PinMode.INPUT ∧
      (on_i2c_connect t a false).1.nINTMode = t.nINTMode) ∧
    (∀ t : ChipState, (on_i2c_read t).1.nINTMode = t.nINTMode) ∧
    (∀ (t : ChipState) (d : Nat), (on_i2c_write t d).1.nINTMode = t.nINTMode) ∧
    (∀ t : ChipState, (on_i2c_disconnect t).nINTMode = t.nINTMode) ∧
    (∀ (t : ChipState) (p : Nat → Bool),
      (chip_addr_change t p).nINTMode = t.nINTMode) := by
  refine ⟨⟨(chip_input_io_change_spec s env).1,
      (chip_input_io_change_spec s env).2.1, ?_⟩, ?_,
    fun t a => ⟨rfl, rfl⟩,
    fun t => (incrementPortCount_spec t).2.2.2.2.1,
    fun t d => on_i2c_write_nINTMode t d,
    fun t => rfl,
    fun t p => rfl⟩
  · rw [(chip_input_io_change_spec s env).1,
      (chip_input_io_change_spec s env).2.1,
      (chip_input_io_change_spec s env).2.2.2]
  · rcases List.eq_nil_or_concat l with hnil | ⟨L, e, rfl⟩
    · exact absurd hnil hl
    · have hc : applyEdges s (L.concat e) =
          chip_input_io_change (applyEdges s L) e := by
        simp [applyEdges]
      rw [hc, (chip_input_io_change_spec _ e).1,
        (chip_input_io_change_spec _ e).2.1,
        (chip_input_io_change_spec _ e).2.2.2]

/-- C1 witness: one edge event on the post-start-up state with all
lines low; the recomputed value equals the (concrete) last-read value,
so the interrupt line ends up released. -/
theorem C1_interrupt_assertion_rule_witness :
    (applyEdges s0 [fun _ => false]).nINTMode = PinMode.INPUT := by
  have h := C1_interrupt_assertion_rule s0 (fun _ => false) [fun _ => false]
    (by simp)
  rw [h.2.1]
  decide

/-- C3: the bus-write callback clears `inputMask` when the byte index
is 0 (so the resulting mask is exactly the low byte of the data for a
first byte), configures line `i + index*8` as a watched pulled-up
input with its mask bit set when data bit `i` is 1 and as a driven-low
output when it is 0, and toggles the index; writing `[0xFF, 0x00]`
from start-up makes lines 0–7 monitored inputs and 8–15 driven-low
outputs, and a third byte in the same transaction is processed with
index 0 again (as the first byte of a new port pair). -/
theorem C3_write_configuration (s : ChipState) (data : Nat)
    (h : s.i2c_portcount ≤ 1) :
    (on_i2c_write s data).2 = true ∧
    (on_i2c_write s data).1.i2c_portcount = 1 - s.i2c_portcount ∧
    (s.i2c_portcount = 0 → (on_i2c_write s data).1.inputMask = data % 256) ∧
    (∀ i, i < 8 →
      ((on_i2c_write s data).1.ioMode (i + s.i2c_portcount * 8) =
        (if data.testBit i then PinMode.INPUT_PULLUP
         else PinMode.OUTPUT_LOW)) ∧
      (on_i2c_write s data).1.ioWatch (i + s.i2c_portcount * 8) =
        data.testBit i ∧
      (data.testBit i = true →
        (on_i2c_write s data).1.inputMask.testBit (i + s.i2c_portcount * 8) =
          true)) ∧
    ((on_i2c_write (on_i2c_write s0 0xFF).1 0x00).1.i2c_portcount = 0 ∧
     (∀ i, i < 8 →
        (on_i2c_write (on_i2c_write s0 0xFF).1 0x00).1.ioMode i =
            PinMode.INPUT_PULLUP ∧
          (on_i2c_write (on_i2c_write s0 0xFF).1 0x00).1.ioMode (i + 8) =
            PinMode.OUTPUT_LOW)) := by
  refine ⟨rfl, ?_, ?_, ?_, by decide⟩
  · rw [on_i2c_write_i2c_portcount]
    split_ifs <;> omega
  · intro h0
    apply Nat.eq_of_testBit_eq
    intro m
    rw [show (256 : Nat) = 2 ^ 8 by norm_num, Nat.testBit_mod_two_pow]
    by_cases hm : m < 8
    · have hin := on_i2c_write_inputMask_in s data m hm
      rw [h0] at hin
      simp only [Nat.zero_mul, Nat.add_zero, if_pos rfl, Bool.false_or] at hin
      rw [hin]
      simp [hm]
    · have hout := on_i2c_write_inputMask_out s data m (by rw [h0]; omega)
      rw [h0] at hout
      simp only [if_pos rfl] at hout
      rw [hout]
      simp [hm]
  · intro i hi
    have hcond : s.i2c_portcount * 8 ≤ i + s.i2c_portcount * 8 ∧
        i + s.i2c_portcount * 8 < s.i2c_portcount * 8 + 8 := by omega
    refine ⟨?_, ?_, ?_⟩
    · rw [on_i2c_write_ioMode, if_pos hcond, Nat.add_sub_cancel]
    · rw [on_i2c_write_ioWatch, if_pos hcond, Nat.add_sub_cancel]
    · intro hbit
      rw [on_i2c_write_inputMask_in s data i hi, hbit, Bool.or_true]

/-- C3 witness: the theorem applied to the post-start-up state and the
byte `0xFF`: line 0 (bit 0 of the byte, which is 1) becomes a
pulled-up monitored input. -/
theorem C3_write_configuration_witness :
    (on_i2c_write s0 0xFF).1.ioMode (0 + s0.i2c_portcount * 8) =
      (if (0xFF : Nat).testBit 0 then PinMode.INPUT_PULLUP
       else PinMode.OUTPUT_LOW) :=
  ((C3_write_configuration s0 0xFF (by decide)).2.2.2.1 0 (by decide)).1

/-- After a first-of-pair write (byte index 0), mask bit, pin mode and
watch registration agree on each line of the low port. -/
theorem write_low_consistency (s : ChipState) (b : Nat)
    (h : s.i2c_portcount = 0) (i : Nat) (hi : i < 8) :
    ((on_i2c_write s b).1.inputMask.testBit i ↔
      ((on_i2c_write s b).1.ioMode i = PinMode.INPUT_PULLUP ∧
       (on_i2c_write s b).1.ioWatch i = true)) := by
  have hm := on_i2c_write_inputMask_in s b i hi
  have ho := on_i2c_write_ioMode s b i
  have hw := on_i2c_write_ioWatch s b i
  rw [h] at hm ho hw
  simp only [Nat.zero_mul, Nat.add_zero, Nat.zero_add, Nat.sub_zero,
    if_pos rfl, Bool.false_or] at hm
  rw [if_pos (by omega : (0 : Nat) ≤ i ∧ i < 8)] at ho hw
  rw [hm, ho, hw]
  by_cases hb : b.testBit i <;> simp [hb]

/-- After a first-of-pair write, every mask bit of the high port has
been cleared (while the high port's pin modes are untouched). -/
theorem write_high_mask_clear (s : ChipState) (b : Nat)
    (h : s.i2c_portcount = 0) (i : Nat) (hi : 8 ≤ i) :
    (on_i2c_write s b).1.inputMask.testBit i = false := by
  have hout := on_i2c_write_inputMask_out s b i (by rw [h]; omega)
  rw [h] at hout
  simpa using hout

/-- C5 counterexample: immediately after a single bus-write invocation
(the first byte, `0x00`, of a pair, from the post-start-up state), the
mask has been cleared for all 16 lines but lines 8–15 are still
pulled-up monitored inputs with registered watches, so mask bit, pin
mode and watch are not mutually consistent for every line 0..15. -/
theorem C5_counterexample :
    ¬ (∀ i, i < 16 →
        ((on_i2c_write s0 0x00).1.inputMask.testBit i ↔
          ((on_i2c_write s0 0x00).1.ioMode i = PinMode.INPUT_PULLUP ∧
           (on_i2c_write s0 0x00).1.ioWatch i = true))) := by
  decide

/-- C5 (amended): after each bus-write invocation, mask bit, pin mode
and watch registration are mutually consistent on the 8 lines of the
port that write configured; full 16-line consistency holds after the
second byte of a write pair (two consecutive writes starting at byte
index 0), but not necessarily after the first byte alone, whose
mask-clearing leaves the other port's cleared mask bits pointing at
still-monitored lines. -/
theorem C5_mask_mode_consistency (s : ChipState) (b0 b1 : Nat)
    (h : s.i2c_portcount = 0) :
    (∀ i, i < 8 →
      ((on_i2c_write s b0).1.inputMask.testBit i ↔
        ((on_i2c_write s b0).1.ioMode i = PinMode.INPUT_PULLUP ∧
         (on_i2c_write s b0).1.ioWatch i = true))) ∧
    (∀ i, 8 ≤ i → (on_i2c_write s b0).1.inputMask.testBit i = false) ∧
    (∀ i, i < 16 →
      ((on_i2c_write (on_i2c_write s b0).1 b1).1.inputMask.testBit i ↔
        ((on_i2c_write (on_i2c_write s b0).1 b1).1.ioMode i =
            PinMode.INPUT_PULLUP ∧
         (on_i2c_write (on_i2c_write s b0).1 b1).1.ioWatch i = true))) := by
  have ht1pc : (on_i2c_write s b0).1.i2c_portcount = 1 := by
    rw [on_i2c_write_i2c_portcount, if_pos h]
  refine ⟨fun i hi => write_low_consistency s b0 h i hi,
    fun i hi => write_high_mask_clear s b0 h i hi, ?_⟩
  intro i hi
  by_cases hlow : i < 8
  · have ho := on_i2c_write_ioMode (on_i2c_write s b0).1 b1 i
    have hw := on_i2c_write_ioWatch (on_i2c_write s b0).1 b1 i
    have hm := on_i2c_write_inputMask_out (on_i2c_write s b0).1 b1 i
      (by rw [ht1pc]; omega)
    rw [ht1pc] at ho hw hm
    rw [if_neg (by omega : ¬ (1 * 8 ≤ i ∧ i < 1 * 8 + 8))] at ho hw
    rw [if_neg (by omega : ¬ (1 : Nat) = 0)] at hm
    rw [ho, hw, hm]
    exact write_low_consistency s b0 h i hlow
  · obtain ⟨j, rfl⟩ : ∃ j, i = j + 8 := ⟨i - 8, by omega⟩
    have hj : j < 8 := by omega
    have ho := on_i2c_write_ioMode (on_i2c_write s b0).1 b1 (j + 8)
    have hw := on_i2c_write_ioWatch (on_i2c_write s b0).1 b1 (j + 8)
    have hm := on_i2c_write_inputMask_in (on_i2c_write s b0).1 b1 j
    rw [ht1pc] at ho hw hm
    rw [if_pos (by omega : 1 * 8 ≤ j + 8 ∧ j + 8 < 1 * 8 + 8)] at ho hw
    rw [show j + 8 - 1 * 8 = j by omega] at ho hw
    rw [if_neg (by omega : ¬ (1 : Nat) = 0), one_mul] at hm
    rw [write_high_mask_clear s b0 h (j + 8) (by omega), Bool.false_or]
      at hm
    rw [hm hj, ho, hw]
    by_cases hb : b1.testBit j <;> simp [hb]

/-- C5 witness: the amended theorem applied to the write pair
`[0xFF, 0x00]` from the post-start-up state, at line 8. -/
theorem C5_mask_mode_consistency_witness :
    ((on_i2c_write (on_i2c_write s0 0xFF).1 0x00).1.inputMask.testBit 8 ↔
      ((on_i2c_write (on_i2c_write s0 0xFF).1 0x00).1.ioMode 8 =
          PinMode.INPUT_PULLUP ∧
       (on_i2c_write (on_i2c_write s0 0xFF).1 0x00).1.ioWatch 8 = true)) :=
  (C5_mask_mode_consistency s0 0xFF 0x00 (by decide)).2.2 8 (by decide)

/-- The post-start-up state after the write pair `[0x00, 0x00]`: every
line is a driven-low output, `inputMask = 0`, while `inputValue` still
holds its start-up value `0xffff`. -/
def sMask0 : ChipState :=
  (on_i2c_write (on_i2c_write s0 0x00).1 0x00).1

/-- C6 counterexample: in state `sMask0`, mask bit 0 is clear and bit 0
of the previous `inputValue` is 1, yet after a monitored-line-change
recomputation bit 0 of the new `inputValue` is 0 — the bit of a
mask-clear line is zeroed by the scan, not left at its previous
value. -/
theorem C6_counterexample :
    sMask0.inputMask.testBit 0 = false ∧
    sMask0.inputValue.testBit 0 = true ∧
    (chip_input_io_change sMask0 (fun _ => true)).inputValue.testBit 0 =
      false := by
  decide

/-- C6 (amended): when the monitored-line-change callback recomputes
`inputValue`, every line whose `inputMask` bit is clear contributes 0:
bit `i` of the new `inputValue` is 0 (not the previous value of that
bit) for every mask-clear line `i`. -/
theorem C6_masked_lines_zeroed (s : ChipState) (env : Nat → Bool) (i : Nat)
    (h : s.inputMask.testBit i = false) :
    (chip_input_io_change s env).inputValue.testBit i = false := by
  rw [(chip_input_io_change_spec s env).1, readInputsValue_testBit, h]
  simp

/-- C6 witness: the amended theorem applied to `sMask0`, line 1, with
every pin electrically high. -/
theorem C6_masked_lines_zeroed_witness :
    (chip_input_io_change sMask0 (fun _ => true)).inputValue.testBit 1 =
      false :=
  C6_masked_lines_zeroed sMask0 (fun _ => true) 1 (by decide)
